import Mathlib

/-!
Verification development for the homepage loot / physics simulation.

The JavaScript sources are shallowly embedded:

* `assets/loot.js` — tier tables, `rollTier`, `spawnLoot`, `spawnConsolationLoot`,
  the pity-upgrade rule, and the `setTimeout`-based drop staggering.  Wall-clock
  timers are modelled by an explicit discrete-event simulator (`stepSim`) whose
  timer queue fires due timers earliest-deadline-first, ties in creation order,
  exactly as the host's timer queue does.  `Math.random()` draws are passed in
  explicitly (an oracle of pre-drawn uniform values), so every definition is a
  pure function of its inputs.
* `assets/physics.js` — the fixed-timestep accumulator loop of `animate`
  (`animateStep` below, generic over the world type, with the per-substep body
  `stepOnce` standing for the transform snapshot plus `world.step`),
  `containCube`, the goodbye-mode state machine, and the impact-mark list.

JavaScript numbers are modelled as exact rationals (`ℚ`); the claims under
study are structural and do not depend on floating-point rounding.
Batches carry a ghost identifier `gid` (not present in the source) so that
statements can talk about which submission a spawned drop belongs to.
-/

namespace SmallerGames

/-! ## Loot tiers (assets/loot.js) -/

def TIER_TRASH : ℕ := 7

def TIER_ZZZ : ℕ := 6

/-- Rarity weight rows, in the tier order 1..7 the `rollTier` loop visits.
`RARITY_WEIGHTS[4]` in the source. -/
def d4Weights : List (ℕ × ℚ) :=
  [(1, 1/2), (2, 1), (3, 3), (4, 8), (5, 15), (6, 25), (7, 95/2)]

def d6Weights : List (ℕ × ℚ) :=
  [(1, 1), (2, 2), (3, 5), (4, 10), (5, 17), (6, 25), (7, 40)]

def d8Weights : List (ℕ × ℚ) :=
  [(1, 2), (2, 3), (3, 7), (4, 13), (5, 20), (6, 25), (7, 30)]

def d10Weights : List (ℕ × ℚ) :=
  [(1, 3), (2, 5), (3, 10), (4, 16), (5, 22), (6, 24), (7, 20)]

def d12Weights : List (ℕ × ℚ) :=
  [(1, 4), (2, 7), (3, 12), (4, 18), (5, 23), (6, 21), (7, 15)]

def d20Weights : List (ℕ × ℚ) :=
  [(1, 6), (2, 9), (3, 14), (4, 20), (5, 22), (6, 17), (7, 12)]

def d100Weights : List (ℕ × ℚ) :=
  [(1, 10), (2, 12), (3, 16), (4, 20), (5, 18), (6, 14), (7, 10)]

/-- The `RARITY_WEIGHTS` object: defined entries only. -/
def RARITY_WEIGHTS (dieSize : ℕ) : Option (List (ℕ × ℚ)) :=
  match dieSize with
  | 4 => some d4Weights
  | 6 => some d6Weights
  | 8 => some d8Weights
  | 10 => some d10Weights
  | 12 => some d12Weights
  | 20 => some d20Weights
  | 100 => some d100Weights
  | _ => none

/-- `RARITY_WEIGHTS[dieSize] || RARITY_WEIGHTS[20]`. -/
def weightsFor (dieSize : ℕ) : List (ℕ × ℚ) :=
  (RARITY_WEIGHTS dieSize).getD d20Weights

/-- Total weight of a row. -/
def sumW (l : List (ℕ × ℚ)) : ℚ :=
  (l.map Prod.snd).sum

/-- The cumulative-bracket loop of `rollTier`: walks the row keeping the
running cumulative weight, returns the first tier whose bracket contains
`roll`; falls through to 7 (the source's `return 7`). -/
def rollTierLoop (roll : ℚ) : ℚ → List (ℕ × ℚ) → ℕ
  | _, [] => 7
  | cum, (t, w) :: rest => if roll < cum + w then t else rollTierLoop roll (cum + w) rest

/-- `rollTier(dieSize)` with the uniform draw `Math.random() * 100` passed
explicitly as `roll`. -/
def rollTier (dieSize : ℕ) (roll : ℚ) : ℕ :=
  rollTierLoop roll 0 (weightsFor dieSize)

/-! ## Pity rule (processLootDrop, assets/loot.js) -/

/-- `Math.min(...drops)` (0 on the empty list, which never occurs: batches
always contain the guaranteed trash drop). -/
def listMin : List ℕ → ℕ
  | [] => 0
  | t :: rest => rest.foldl min t

/-- The pity-upgrade block of `processLootDrop`: if every tier is 6 or 7,
the first occurrence of the best (minimal) tier is decremented by one. -/
def applyPity (drops : List ℕ) : List ℕ :=
  if drops.all (fun t => TIER_ZZZ ≤ t) then
    let bestIndex := drops.indexOf (listMin drops)
    drops.set bestIndex (drops.getD bestIndex 0 - 1)
  else drops

/-- The batch assembled by `processLootDrop` before the pity rule: the rolled
tiers plus one guaranteed trash. `rolled` stands for the `rollResult` calls
of `rollTier`. -/
def lootBatch (rolled : List ℕ) : List ℕ :=
  rolled ++ [TIER_TRASH]

/-- The batch `processLootDrop` hands to `processDrops`. -/
def processedBatch (rolled : List ℕ) : List ℕ :=
  applyPity (lootBatch rolled)

/-! ## Drop scheduling (assets/loot.js) -/

def BASE_DROP_INTERVAL_MS : ℚ := 150

def MIN_DROP_INTERVAL_MS : ℚ := 30

/-- `Math.max(MIN, BASE - drops.length * 1.2)`. -/
def dropInterval (dropCount : ℕ) : ℚ :=
  max MIN_DROP_INTERVAL_MS (BASE_DROP_INTERVAL_MS - dropCount * (6/5))

/-- `drops.sort((a, b) => b - a)`: descending order. -/
def sortDesc (l : List ℕ) : List ℕ :=
  l.insertionSort (fun a b => b ≤ a)

instance : IsTotal ℕ (fun a b => b ≤ a) :=
  ⟨fun a b => le_total b a⟩

instance : IsTrans ℕ (fun a b => b ≤ a) :=
  ⟨fun _ _ _ h1 h2 => le_trans h2 h1⟩

/-- A queued `spawnLoot` request, `{ dieSize, rollResult, originX, originY }`,
plus the ghost batch identifier `gid`. -/
structure LootEntry where
  dieSize : ℕ
  rollResult : ℕ
  originX : ℚ
  originY : ℚ
  gid : ℕ
deriving DecidableEq

/-- What a pending `setTimeout` callback in loot.js does when it fires. -/
inductive TimerAct where
  /-- the staggered per-drop callback: `dropsInFlight++; spawnCube(tier, …)`
  and schedule the settle callback 100 ms later -/
  | fire (gid tier : ℕ) (ox oy : ℚ)
  /-- the settle callback: `dropsInFlight--` and possibly dequeue -/
  | settle
deriving DecidableEq

/-- A pending timer: absolute deadline plus its action. -/
structure Timer where
  time : ℚ
  act : TimerAct
deriving DecidableEq

/-- The loot module's mutable state: `dropsInFlight`, `lootQueue`, plus the
host timer queue (in creation order), the current time, and a ghost log of
the `spawnCube` calls made so far (batch gid, tier). -/
structure SchedState where
  now : ℚ
  timers : List Timer
  dropsInFlight : ℕ
  lootQueue : List LootEntry
  spawned : List (ℕ × ℕ)
deriving DecidableEq

/-- `processDrops(drops, originX, originY)`: sorts descending and schedules one
`fire` timer per drop, staggered by `dropInterval`.  The announcement is
DOM-only and rolls no state, so it is not modelled. -/
def processDrops (s : SchedState) (gid : ℕ) (drops : List ℕ) (ox oy : ℚ) : SchedState :=
  let sorted := sortDesc drops
  let interval := dropInterval drops.length
  { s with
    timers := s.timers ++
      sorted.enum.map (fun p => ⟨s.now + p.1 * interval, .fire gid p.2 ox oy⟩) }

/-- The tiers `processLootDrop` rolls for an entry, with the uniform draws
supplied by `oracle` (one pre-drawn stream per ghost batch id). -/
def rolledTiers (oracle : ℕ → List ℚ) (e : LootEntry) : List ℕ :=
  ((oracle e.gid).take e.rollResult).map (rollTier e.dieSize)

/-- The final drop list an entry produces when processed. -/
def dropsFor (oracle : ℕ → List ℚ) (e : LootEntry) : List ℕ :=
  applyPity (lootBatch (rolledTiers oracle e))

/-- `processLootDrop(dieSize, rollResult, originX, originY)`. -/
def processLootDrop (oracle : ℕ → List ℚ) (s : SchedState) (e : LootEntry) : SchedState :=
  processDrops s e.gid (dropsFor oracle e) e.originX e.originY

/-- `spawnLoot`: enqueue while drops are in flight, else process now. -/
def spawnLoot (oracle : ℕ → List ℚ) (s : SchedState) (e : LootEntry) : SchedState :=
  if 0 < s.dropsInFlight then { s with lootQueue := s.lootQueue ++ [e] }
  else processLootDrop oracle s e

/-- The drop list `spawnConsolationLoot` builds: `1 + Math.floor(rTrash * 3)`
trash, plus one zzz when `rZzz < 0.25`. -/
def consolationDrops (rTrash rZzz : ℚ) : List ℕ :=
  List.replicate (1 + (rTrash * 3).floor.toNat) TIER_TRASH ++
    (if rZzz < (1/4 : ℚ) then [TIER_ZZZ] else [])

/-- `spawnConsolationLoot(originX, originY)`: processes its drops directly and
returns the best tier for UI feedback. -/
def spawnConsolationLoot (rTrash rZzz : ℚ) (gid : ℕ) (s : SchedState) (ox oy : ℚ) :
    SchedState × ℕ :=
  let drops := consolationDrops rTrash rZzz
  (processDrops s gid drops ox oy,
   if rZzz < (1/4 : ℚ) then TIER_ZZZ else TIER_TRASH)

/-- Run one fired timer callback (the timer itself has already been removed
from the queue). -/
def fireAct (oracle : ℕ → List ℚ) (s : SchedState) : TimerAct → SchedState
  | .fire gid tier _ _ =>
    { s with
      dropsInFlight := s.dropsInFlight + 1,
      spawned := s.spawned ++ [(gid, tier)],
      timers := s.timers ++ [⟨s.now + 100, .settle⟩] }
  | .settle =>
    let s1 := { s with dropsInFlight := s.dropsInFlight - 1 }
    if s1.dropsInFlight = 0 then
      match s1.lootQueue with
      | [] => s1
      | e :: rest => processLootDrop oracle { s1 with lootQueue := rest } e
    else s1

/-- Extract the next timer to fire: the first timer with the minimal deadline
(the host fires equal deadlines in creation order). Returns it together with
the remaining queue, `none` when the queue is empty. -/
def takeEarliest : List Timer → Option (Timer × List Timer)
  | [] => none
  | tm :: rest =>
    match takeEarliest rest with
    | none => some (tm, [])
    | some (tm', rest') =>
      if tm.time ≤ tm'.time then some (tm, rest) else some (tm', tm :: rest')

/-- One discrete-event step: fire the due timer (if any). -/
def stepSim (oracle : ℕ → List ℚ) (s : SchedState) : SchedState :=
  match takeEarliest s.timers with
  | none => s
  | some (tm, rest) => fireAct oracle { s with now := tm.time, timers := rest } tm.act

/-- Tiers a pending timer will still spawn. -/
def actTiers : TimerAct → List ℕ
  | .fire _ t _ _ => [t]
  | .settle => []

/-- All tiers pending in the timer queue. -/
def timersTiers (l : List Timer) : List ℕ :=
  l.flatMap (fun tm => actTiers tm.act)

/-- All tiers the queued entries will eventually produce. -/
def queueTiers (oracle : ℕ → List ℚ) (q : List LootEntry) : List ℕ :=
  q.flatMap (dropsFor oracle)

/-- Every drop the scheduler has spawned or still owes: the conserved
quantity of the scheduler (up to permutation). -/
def liveTiers (oracle : ℕ → List ℚ) (s : SchedState) : List ℕ :=
  s.spawned.map Prod.snd ++ timersTiers s.timers ++ queueTiers oracle s.lootQueue

/-! ### Concrete two-batch scenario used to analyse batch interleaving -/

/-- Draw streams: batch 0 rolls 99 (tier 7 on a d20), batch 1 rolls 0 (tier 1). -/
def oracleCx : ℕ → List ℚ :=
  fun g => if g = 0 then [99] else [0]

def entryA : LootEntry := ⟨20, 1, 0, 0, 0⟩

def entryB : LootEntry := ⟨20, 1, 0, 0, 1⟩

def cxInit : SchedState := ⟨0, [], 0, [], []⟩

/-- `spawnLoot` batch A; fire its first drop; `spawnLoot` batch B while A is in
flight; then run three more timer events. -/
def cxState : SchedState :=
  stepSim oracleCx (stepSim oracleCx (stepSim oracleCx
    (spawnLoot oracleCx (stepSim oracleCx (spawnLoot oracleCx cxInit entryA)) entryB)))

/-! ## Fixed-timestep stepping (animate, assets/physics.js) -/

def DELTA_CAP_MS : ℚ := 50

def PHYSICS_TIMESTEP : ℚ := 1/60

def MAX_SUBSTEPS : ℕ := 4

/-- The `while (accumulator >= PHYSICS_TIMESTEP && steps < MAX_SUBSTEPS)` loop,
generic over the world state `W`; `stepOnce` is the loop body (snapshot every
cube's previous transform, then `world.step`).  The structural `fuel`
argument only bounds the recursion; since `steps` grows with every
iteration, starting with `fuel = MAX_SUBSTEPS` (as `substepLoop` does) the
guard `steps < MAX_SUBSTEPS` always fails before the fuel runs out, so the
fuel never changes the result.  Returns the final accumulator, world, and
substep count. -/
def substepLoopF {W : Type*} (stepOnce : W → W) : ℕ → ℚ → W → ℕ → ℚ × W × ℕ
  | 0, acc, w, steps => (acc, w, steps)
  | fuel + 1, acc, w, steps =>
    if PHYSICS_TIMESTEP ≤ acc ∧ steps < MAX_SUBSTEPS then
      substepLoopF stepOnce fuel (acc - PHYSICS_TIMESTEP) (stepOnce w) (steps + 1)
    else (acc, w, steps)

/-- The substep loop as `animate` enters it: `steps = 0`. -/
def substepLoop {W : Type*} (stepOnce : W → W) (acc : ℚ) (w : W) : ℚ × W × ℕ :=
  substepLoopF stepOnce MAX_SUBSTEPS acc w 0

/-- Result of the stepping part of one `animate` frame. -/
structure FrameResult (W : Type*) where
  steps : ℕ
  accumulator : ℚ
  alpha : ℚ
  world : W
deriving DecidableEq

/-- The stepping part of one `animate` frame: clamp the raw frame delta to
`DELTA_CAP_MS`, accumulate, run capped substeps, compute the interpolation
alpha, and discard leftover accumulator when the cap was hit. -/
def animateStep {W : Type*} (stepOnce : W → W) (acc : ℚ) (w : W) (rawDeltaMs : ℚ) :
    FrameResult W :=
  let delta := min rawDeltaMs DELTA_CAP_MS
  let r := substepLoop stepOnce (acc + delta / 1000) w
  let alpha := if 0 < r.2.2 ∧ r.1 < PHYSICS_TIMESTEP then r.1 / PHYSICS_TIMESTEP else 1
  let acc2 := if PHYSICS_TIMESTEP ≤ r.1 then 0 else r.1
  ⟨r.2.2, acc2, alpha, r.2.1⟩

/-! ## Containment (containCube, assets/physics.js) -/

def PIXELS_PER_METER : ℚ := 80

def BOUNCE_DAMPING : ℚ := 1/2

def toPhysics (px : ℚ) : ℚ := px / PIXELS_PER_METER

structure ScreenBounds where
  left : ℚ
  right : ℚ
  top : ℚ
deriving DecidableEq

/-- A rigid body's translation and linear velocity (physics units). -/
structure BodyState where
  pos : ℚ × ℚ
  vel : ℚ × ℚ
deriving DecidableEq

/-- `containCube(body, pxX, pxY, physPos, vel)`: each branch calls
`setTranslation`/`setLinvel` with components taken from the `physPos`/`vel`
captured at entry, so a later branch overwrites an earlier one's clamp. -/
def containCube (goodbyeMode : Bool) (sb : ScreenBounds) (bucketBottom : ℚ)
    (pxX pxY : ℚ) (physPos vel : ℚ × ℚ) : BodyState :=
  let b0 : BodyState := ⟨physPos, vel⟩
  let b1 :=
    if pxX < sb.left then
      ⟨(toPhysics sb.left, physPos.2), (|vel.1| * BOUNCE_DAMPING, vel.2)⟩
    else if sb.right < pxX then
      ⟨(toPhysics sb.right, physPos.2), (-|vel.1| * BOUNCE_DAMPING, vel.2)⟩
    else b0
  let b2 :=
    if ¬goodbyeMode ∧ pxY < sb.top then
      ⟨(physPos.1, toPhysics sb.top), (vel.1, |vel.2| * BOUNCE_DAMPING)⟩
    else b1
  let b3 :=
    if bucketBottom < pxY then
      ⟨(physPos.1, toPhysics bucketBottom), (vel.1, -|vel.2| * BOUNCE_DAMPING)⟩
    else b2
  b3

/-! ## Goodbye mode (assets/physics.js) -/

def GRAVITY_MULTIPLIER : ℚ := 9/5

/-- `9.81 * GRAVITY_MULTIPLIER`, the normal downward gravity magnitude. -/
def normalGravityY : ℚ := (981/100) * GRAVITY_MULTIPLIER

/-- The physics module state the goodbye sequence touches.  `hasCeiling`
stands for `ceilingCollider !== null`. -/
structure PhysicsState where
  goodbyeMode : Bool
  goodbyeGravityRestored : Bool
  hasCeiling : Bool
  gravityY : ℚ
  cubeCount : ℕ
deriving DecidableEq

/-- `triggerGoodbye()`: returns the source's return value with the new state. -/
def triggerGoodbye (s : PhysicsState) : Bool × PhysicsState :=
  if s.goodbyeMode ∨ s.cubeCount = 0 then (false, s)
  else
    (true,
     { s with
       goodbyeMode := true,
       goodbyeGravityRestored := false,
       hasCeiling := true,
       gravityY := -normalGravityY })

/-- `updateGoodbyeMode()`. -/
def updateGoodbyeMode (s : PhysicsState) : PhysicsState :=
  if ¬s.goodbyeMode then s
  else if s.cubeCount = 0 then
    { s with hasCeiling := false, gravityY := normalGravityY, goodbyeMode := false }
  else s

/-! ## Impact marks (animate collision handler, assets/physics.js) -/

def MAX_IMPACTS : ℕ := 50

def IMPACT_GROWTH_RATE : ℚ := 3/10

def IMPACT_FADE_RATE : ℚ := 1/250

structure Impact where
  x : ℚ
  y : ℚ
  width : ℚ
  alpha : ℚ
  color : String
deriving DecidableEq

/-- The collision handler's insertion: `if (impacts.length < MAX_IMPACTS)
impacts.push(…)` — the push is skipped entirely at the cap. -/
def pushImpact (impacts : List Impact) (m : Impact) : List Impact :=
  if impacts.length < MAX_IMPACTS then impacts ++ [m] else impacts

/-- The per-frame decay filter: grow width, fade alpha, keep while visible. -/
def updateImpacts (delta : ℚ) (impacts : List Impact) : List Impact :=
  (impacts.map (fun imp =>
    { imp with
      width := imp.width + delta * IMPACT_GROWTH_RATE,
      alpha := imp.alpha - delta * IMPACT_FADE_RATE })).filter
    (fun imp => 0 < imp.alpha)

/-- The operations `animate` ever performs on the impact list. -/
inductive ImpactOp where
  | push (m : Impact)
  | decay (delta : ℚ)

def applyOp (l : List Impact) : ImpactOp → List Impact
  | .push m => pushImpact l m
  | .decay d => updateImpacts d l

/-- The impact list after a run of `animate` operations, starting from the
initial empty list. -/
def applyOps (ops : List ImpactOp) : List Impact :=
  ops.foldl applyOp []

/-! ## Helper lemmas -/

theorem foldl_min_le_init (l : List ℕ) (a : ℕ) : l.foldl min a ≤ a := by
  induction l generalizing a with
  | nil => simp
  | cons x xs ih => exact le_trans (ih (min a x)) (min_le_left a x)

theorem foldl_min_le_mem (l : List ℕ) (a : ℕ) : ∀ x ∈ l, l.foldl min a ≤ x := by
  induction l generalizing a with
  | nil => simp
  | cons y ys ih =>
    intro x hx
    rcases List.mem_cons.mp hx with h | h
    · subst h
      exact le_trans (foldl_min_le_init ys (min a x)) (min_le_right a x)
    · exact ih (min a y) x h

theorem foldl_min_mem_or (l : List ℕ) (a : ℕ) : l.foldl min a = a ∨ l.foldl min a ∈ l := by
  induction l generalizing a with
  | nil => simp
  | cons y ys ih =>
    rcases ih (min a y) with h | h
    · rcases min_cases a y with ⟨he, _⟩ | ⟨he, _⟩
      · exact Or.inl (by simpa [he] using h)
      · refine Or.inr ?_
        have hy : List.foldl min a (y :: ys) = y := by
          simp only [List.foldl_cons]
          rw [h, he]
        rw [hy]
        exact List.mem_cons_self y ys
    · exact Or.inr (List.mem_cons_of_mem y h)

theorem listMin_le {l : List ℕ} : ∀ x ∈ l, listMin l ≤ x := by
  cases l with
  | nil => simp
  | cons a rest =>
    intro x hx
    rcases List.mem_cons.mp hx with h | h
    · subst h; exact foldl_min_le_init rest x
    · exact foldl_min_le_mem rest a x h

theorem listMin_mem {l : List ℕ} (h : l ≠ []) : listMin l ∈ l := by
  cases l with
  | nil => exact absurd rfl h
  | cons a rest =>
    rcases foldl_min_mem_or rest a with h1 | h1
    · simp [listMin, h1]
    · exact List.mem_cons_of_mem a (by simpa [listMin] using h1)

theorem getD_set_self (l : List ℕ) (i v : ℕ) (h : i < l.length) :
    (l.set i v).getD i 0 = v := by
  rw [List.getD_eq_getElem _ _ (by simpa using h)]
  simp [List.getElem_set, h]

theorem getD_set_other (l : List ℕ) (i v j : ℕ) (h : j ≠ i) :
    (l.set i v).getD j 0 = l.getD j 0 := by
  by_cases hj : j < l.length
  · rw [List.getD_eq_getElem _ _ (by simpa using hj), List.getD_eq_getElem _ _ hj]
    simp [List.getElem_set, h.symm]
  · rw [List.getD_eq_default _ _ (by simpa using not_lt.mp hj),
      List.getD_eq_default _ _ (not_lt.mp hj)]

/-! ## Claims -/

/-- Claim C2: for every loot batch produced by `spawnLoot` (the rolled tiers
plus the guaranteed trash tier), if every tier in the batch is 6 or more,
exactly one item — one holding the previously-best (minimal) tier number —
is decremented by exactly one step and every other position is unchanged;
if any tier is rarer than tier 6, the batch is unchanged. -/
theorem c2_pity_rule (rolled : List ℕ) :
    ((∀ t ∈ lootBatch rolled, TIER_ZZZ ≤ t) →
      ∃ i, i < (lootBatch rolled).length ∧
        (lootBatch rolled).getD i 0 = listMin (lootBatch rolled) ∧
        (processedBatch rolled).getD i 0 = listMin (lootBatch rolled) - 1 ∧
        (∀ j, j ≠ i → (processedBatch rolled).getD j 0 = (lootBatch rolled).getD j 0) ∧
        (∀ t ∈ lootBatch rolled, listMin (lootBatch rolled) ≤ t) ∧
        (processedBatch rolled).length = (lootBatch rolled).length) ∧
    ((∃ t ∈ lootBatch rolled, t < TIER_ZZZ) →
      processedBatch rolled = lootBatch rolled) := by
  set b := lootBatch rolled with hb
  have hbne : b ≠ [] := by
    simp [hb, lootBatch]
  constructor
  · intro hall
    have hallb : b.all (fun t => TIER_ZZZ ≤ t) = true := by
      rw [List.all_eq_true]
      intro x hx
      simpa using hall x hx
    have hmem : listMin b ∈ b := listMin_mem hbne
    have hlt : b.indexOf (listMin b) < b.length := List.indexOf_lt_length.mpr hmem
    have hget : b.getD (b.indexOf (listMin b)) 0 = listMin b := by
      rw [List.getD_eq_get _ _ hlt]
      exact List.indexOf_get hlt
    have hset : processedBatch rolled =
        b.set (b.indexOf (listMin b)) (b.getD (b.indexOf (listMin b)) 0 - 1) := by
      rw [processedBatch, ← hb, applyPity, if_pos hallb]
    refine ⟨b.indexOf (listMin b), hlt, hget, ?_, ?_, ?_, ?_⟩
    · rw [hset, getD_set_self _ _ _ hlt, hget]
    · intro j hj
      rw [hset, getD_set_other _ _ _ _ hj]
    · exact listMin_le
    · rw [hset, List.length_set]
  · rintro ⟨t, ht, htlt⟩
    have hallb : ¬b.all (fun t => TIER_ZZZ ≤ t) = true := by
      rw [List.all_eq_true]
      intro hcl
      have := hcl t ht
      simp at this
      omega
    rw [processedBatch, ← hb, applyPity, if_neg hallb]

/-- Claim C2 witness: on the all-common batch rolled = [7] (so the batch is
[7, 7]) the pity rule fires, and on rolled = [1] it does not. -/
theorem c2_pity_rule_witness :
    (∃ i, i < (lootBatch [7]).length ∧
        (lootBatch [7]).getD i 0 = listMin (lootBatch [7]) ∧
        (processedBatch [7]).getD i 0 = listMin (lootBatch [7]) - 1 ∧
        (∀ j, j ≠ i → (processedBatch [7]).getD j 0 = (lootBatch [7]).getD j 0) ∧
        (∀ t ∈ lootBatch [7], listMin (lootBatch [7]) ≤ t) ∧
        (processedBatch [7]).length = (lootBatch [7]).length) ∧
      processedBatch [1] = lootBatch [1] :=
  ⟨(c2_pity_rule [7]).1 (by decide), (c2_pity_rule [1]).2 ⟨1, by decide, by decide⟩⟩

/-- Claim C10: a `spawnLoot` call with `rollResult = 0` yields the batch
`[7]`, which always triggers the pity rule, so the processed batch is exactly
one drop of tier 6 — no trash item remains. -/
theorem c10_zero_roll_batch :
    processedBatch [] = [TIER_ZZZ] ∧ TIER_ZZZ = 6 ∧
      TIER_TRASH ∉ processedBatch [] ∧ (processedBatch []).length = 1 := by
  decide

/-- Claim C4: `triggerGoodbye` returns false and changes nothing when goodbye
mode is active or there are no cubes; otherwise it creates the ceiling
collider, reverses gravity to upward, marks the mode active and returns true;
and `updateGoodbyeMode` ends the mode — ceiling destroyed, gravity reset
downward, flag cleared — exactly when the cube count is zero. -/
theorem c4_goodbye_state_machine (s : PhysicsState) :
    (s.goodbyeMode ∨ s.cubeCount = 0 → triggerGoodbye s = (false, s)) ∧
    (¬s.goodbyeMode → s.cubeCount ≠ 0 →
      triggerGoodbye s =
        (true,
         { s with goodbyeMode := true, goodbyeGravityRestored := false,
                  hasCeiling := true, gravityY := -normalGravityY }) ∧
      (triggerGoodbye s).2.gravityY < 0 ∧ 0 < normalGravityY) ∧
    (s.goodbyeMode → s.cubeCount = 0 →
      updateGoodbyeMode s =
        { s with hasCeiling := false, gravityY := normalGravityY,
                 goodbyeMode := false }) ∧
    (¬(s.goodbyeMode = true ∧ s.cubeCount = 0) → updateGoodbyeMode s = s) := by
  have hg : (0 : ℚ) < normalGravityY := by
    norm_num [normalGravityY, GRAVITY_MULTIPLIER]
  refine ⟨?_, ?_, ?_, ?_⟩
  · intro h
    have hcond : s.goodbyeMode = true ∨ s.cubeCount = 0 := by
      rcases h with h | h
      · exact Or.inl h
      · exact Or.inr h
    simp [triggerGoodbye, hcond]
  · intro h1 h2
    have hcond : ¬(s.goodbyeMode = true ∨ s.cubeCount = 0) := by
      rintro (h | h)
      · exact h1 h
      · exact h2 h
    refine ⟨by simp [triggerGoodbye, hcond], ?_, hg⟩
    simp only [triggerGoodbye, if_neg hcond]
    simpa using neg_neg_iff_pos.mpr hg
  · intro h1 h2
    simp [updateGoodbyeMode, h1, h2]
  · intro h
    by_cases hm : s.goodbyeMode
    · have hc : s.cubeCount ≠ 0 := fun hz => h ⟨hm, hz⟩
      simp [updateGoodbyeMode, hm, hc]
    · simp [updateGoodbyeMode, hm]

/-- Claim C4 witness: concrete states exercising each branch — a trigger while
active is a no-op; a trigger from the normal state with three cubes reverses
gravity; the mode ends exactly when the cube count is zero. -/
theorem c4_goodbye_state_machine_witness :
    triggerGoodbye ⟨true, false, true, -normalGravityY, 3⟩ =
      (false, ⟨true, false, true, -normalGravityY, 3⟩) ∧
    triggerGoodbye ⟨false, false, false, normalGravityY, 3⟩ =
      (true, ⟨true, false, true, -normalGravityY, 3⟩) ∧
    updateGoodbyeMode ⟨true, true, true, -normalGravityY, 0⟩ =
      ⟨false, true, false, normalGravityY, 0⟩ ∧
    updateGoodbyeMode ⟨true, false, true, -normalGravityY, 3⟩ =
      ⟨true, false, true, -normalGravityY, 3⟩ :=
  ⟨(c4_goodbye_state_machine ⟨true, false, true, -normalGravityY, 3⟩).1 (Or.inl rfl),
   ((c4_goodbye_state_machine ⟨false, false, false, normalGravityY, 3⟩).2.1
      (by simp) (by simp)).1,
   (c4_goodbye_state_machine ⟨true, true, true, -normalGravityY, 0⟩).2.2.1 rfl rfl,
   (c4_goodbye_state_machine ⟨true, false, true, -normalGravityY, 3⟩).2.2.2
      (by rintro ⟨_, h⟩; simp at h)⟩

/-- Claim C5 counterexample: a cube at pixel x = −100 (left of the boundary)
with initial velocity (2, 0) — moving away from the edge — comes out of one
containment pass with horizontal velocity +1, the same sign as before, not
the sign-flipped −1 the claim asserts for every initial velocity. -/
theorem c5_counterexample :
    (containCube false ⟨10, 1270, 10⟩ 600 (-100) 300 (-5/4, 15/4) (2, 0)).vel.1 = 1 ∧
    (containCube false ⟨10, 1270, 10⟩ 600 (-100) 300 (-5/4, 15/4) (2, 0)).vel.1 ≠
      -(2 * BOUNCE_DAMPING) := by
  norm_num [containCube, BOUNCE_DAMPING]

/-- Claim C5 (amended): for a cube whose pixel x lies left of the left
boundary and whose pixel y is inside the vertical bounds, one containment
pass puts the position exactly on the left boundary with y unchanged, leaves
the vertical velocity unchanged, and sets the horizontal velocity to
`|vx| * BOUNCE_DAMPING` — pointing away from the edge, hence sign-flipped
exactly when the cube was moving toward the edge (vx ≤ 0). -/
theorem c5_left_edge_containment (gm : Bool) (sb : ScreenBounds) (bottom : ℚ)
    (pxX pxY : ℚ) (physPos vel : ℚ × ℚ)
    (hx : pxX < sb.left) (hyt : sb.top ≤ pxY) (hyb : pxY ≤ bottom) :
    containCube gm sb bottom pxX pxY physPos vel =
      ⟨(toPhysics sb.left, physPos.2), (|vel.1| * BOUNCE_DAMPING, vel.2)⟩ ∧
    0 ≤ (containCube gm sb bottom pxX pxY physPos vel).vel.1 ∧
    (vel.1 ≤ 0 →
      (containCube gm sb bottom pxX pxY physPos vel).vel.1 =
        -vel.1 * BOUNCE_DAMPING) := by
  have h1 : ¬pxY < sb.top := not_lt.mpr hyt
  have h2 : ¬bottom < pxY := not_lt.mpr hyb
  have heq : containCube gm sb bottom pxX pxY physPos vel =
      ⟨(toPhysics sb.left, physPos.2), (|vel.1| * BOUNCE_DAMPING, vel.2)⟩ := by
    simp [containCube, hx, h1, h2]
  refine ⟨heq, ?_, ?_⟩
  · rw [heq]
    exact mul_nonneg (abs_nonneg _) (by norm_num [BOUNCE_DAMPING])
  · intro hv
    rw [heq]
    simp [abs_of_nonpos hv]

/-- Claim C5 witness: a cube at pixel x = −100 moving toward the edge with
velocity (−2, 1) is clamped to the boundary and leaves with velocity (1, 1):
sign-flipped and halved. -/
theorem c5_left_edge_containment_witness :
    containCube false ⟨10, 1270, 10⟩ 600 (-100) 300 (-5/4, 15/4) (-2, 1) =
      ⟨(toPhysics 10, 15/4), (|(-2 : ℚ)| * BOUNCE_DAMPING, 1)⟩ ∧
    -(-2 : ℚ) * BOUNCE_DAMPING = 1 :=
  ⟨(c5_left_edge_containment false ⟨10, 1270, 10⟩ 600 (-100) 300 (-5/4, 15/4) (-2, 1)
      (by norm_num) (by norm_num) (by norm_num)).1,
   by norm_num [BOUNCE_DAMPING]⟩

/-- The impact-list length never exceeds the cap, whatever list `animate`'s
operations start from. -/
theorem foldl_applyOp_length_le (ops : List ImpactOp) :
    ∀ l : List Impact, l.length ≤ MAX_IMPACTS →
      (ops.foldl applyOp l).length ≤ MAX_IMPACTS := by
  induction ops with
  | nil => intro l hl; simpa using hl
  | cons op rest ih =>
    intro l hl
    refine ih (applyOp l op) ?_
    cases op with
    | push m =>
      by_cases hlen : l.length < MAX_IMPACTS
      · simp only [applyOp, pushImpact, if_pos hlen, List.length_append,
          List.length_singleton]
        omega
      · simpa [applyOp, pushImpact, hlen] using hl
    | decay d =>
      calc (applyOp l (.decay d)).length
          ≤ (l.map _).length := List.length_filter_le _ _
        _ = l.length := List.length_map _ _
        _ ≤ MAX_IMPACTS := hl

/-- Claim C8: starting from the empty list, any sequence of `animate`
operations keeps the impact list at or below `MAX_IMPACTS` (50) entries, and
an insertion attempted while the list is at the cap leaves the list exactly
unchanged — nothing is evicted and nothing is added. -/
theorem c8_impact_cap (ops : List ImpactOp) (impacts : List Impact) (m : Impact) :
    (applyOps ops).length ≤ MAX_IMPACTS ∧
    (impacts.length = MAX_IMPACTS → pushImpact impacts m = impacts) ∧
    (impacts.length ≤ MAX_IMPACTS → (pushImpact impacts m).length ≤ MAX_IMPACTS) := by
  refine ⟨foldl_applyOp_length_le ops [] (by simp), ?_, ?_⟩
  · intro h
    simp [pushImpact, h]
  · intro h
    by_cases hlen : impacts.length < MAX_IMPACTS
    · simp only [pushImpact, if_pos hlen, List.length_append, List.length_singleton]
      omega
    · simpa [pushImpact, hlen] using h

/-- The substep counter never exceeds `MAX_SUBSTEPS`. -/
theorem substepLoopF_steps_le {W : Type*} (stepOnce : W → W) :
    ∀ (fuel : ℕ) (acc : ℚ) (w : W) (steps : ℕ), steps ≤ MAX_SUBSTEPS →
      (substepLoopF stepOnce fuel acc w steps).2.2 ≤ MAX_SUBSTEPS := by
  intro fuel
  induction fuel with
  | zero => intro acc w steps h; simpa [substepLoopF] using h
  | succ n ih =>
    intro acc w steps h
    by_cases hc : PHYSICS_TIMESTEP ≤ acc ∧ steps < MAX_SUBSTEPS
    · rw [substepLoopF, if_pos hc]
      exact ih _ _ _ (by omega)
    · rw [substepLoopF, if_neg hc]
      simpa using h

/-- On exit, the loop guard is false (given enough fuel, as `animate` always
supplies): either the accumulator dropped below one timestep or the substep
cap was reached. -/
theorem substepLoopF_exit {W : Type*} (stepOnce : W → W) :
    ∀ (fuel : ℕ) (acc : ℚ) (w : W) (steps : ℕ), MAX_SUBSTEPS ≤ fuel + steps →
      ¬(PHYSICS_TIMESTEP ≤ (substepLoopF stepOnce fuel acc w steps).1 ∧
        (substepLoopF stepOnce fuel acc w steps).2.2 < MAX_SUBSTEPS) := by
  intro fuel
  induction fuel with
  | zero =>
    intro acc w steps h
    rintro ⟨-, hlt⟩
    simp only [substepLoopF] at hlt
    omega
  | succ n ih =>
    intro acc w steps h
    by_cases hc : PHYSICS_TIMESTEP ≤ acc ∧ steps < MAX_SUBSTEPS
    · rw [substepLoopF, if_pos hc]
      exact ih _ _ _ (by omega)
    · rw [substepLoopF, if_neg hc]
      exact hc

/-- Claim C3: for every prior stepping state, one `animate` frame with a raw
delta of 1000 ms behaves exactly like one with the 50 ms cap (same substeps,
same final world, same accumulator, same alpha); no frame ever runs more
than `MAX_SUBSTEPS` substeps; and whenever the loop exits with at least one
timestep still accumulated (the cap was hit), the leftover accumulator is
discarded and the interpolation alpha is 1. -/
theorem c3_frame_delta_cap {W : Type*} (stepOnce : W → W) (acc : ℚ) (w : W) :
    animateStep stepOnce acc w 1000 = animateStep stepOnce acc w 50 ∧
    (∀ rawDeltaMs : ℚ, (animateStep stepOnce acc w rawDeltaMs).steps ≤ MAX_SUBSTEPS) ∧
    (∀ rawDeltaMs : ℚ,
      PHYSICS_TIMESTEP ≤
          (substepLoop stepOnce (acc + min rawDeltaMs DELTA_CAP_MS / 1000) w).1 →
      (animateStep stepOnce acc w rawDeltaMs).steps = MAX_SUBSTEPS ∧
      (animateStep stepOnce acc w rawDeltaMs).alpha = 1 ∧
      (animateStep stepOnce acc w rawDeltaMs).accumulator = 0) := by
  refine ⟨?_, ?_, ?_⟩
  · have h1 : min (1000 : ℚ) DELTA_CAP_MS = DELTA_CAP_MS :=
      min_eq_right (by norm_num [DELTA_CAP_MS])
    have h2 : min (50 : ℚ) DELTA_CAP_MS = DELTA_CAP_MS :=
      min_eq_right (by norm_num [DELTA_CAP_MS])
    simp only [animateStep, h1, h2]
  · intro raw
    simp only [animateStep]
    exact substepLoopF_steps_le stepOnce MAX_SUBSTEPS _ w 0 (Nat.zero_le _)
  · intro raw hleft
    have hexit := substepLoopF_exit stepOnce MAX_SUBSTEPS
      (acc + min raw DELTA_CAP_MS / 1000) w 0 (by omega)
    have hle := substepLoopF_steps_le stepOnce MAX_SUBSTEPS
      (acc + min raw DELTA_CAP_MS / 1000) w 0 (Nat.zero_le _)
    rw [substepLoop] at hleft
    have hsteps :
        (substepLoopF stepOnce MAX_SUBSTEPS (acc + min raw DELTA_CAP_MS / 1000) w 0).2.2 =
          MAX_SUBSTEPS := by
      rcases not_and_or.mp hexit with h | h
      · exact absurd hleft h
      · omega
    have halpha :
        ¬(0 < (substepLoopF stepOnce MAX_SUBSTEPS (acc + min raw DELTA_CAP_MS / 1000) w 0).2.2 ∧
          (substepLoopF stepOnce MAX_SUBSTEPS (acc + min raw DELTA_CAP_MS / 1000) w 0).1 <
            PHYSICS_TIMESTEP) := by
      rintro ⟨-, hlt⟩
      exact absurd hleft (not_le.mpr hlt)
    refine ⟨?_, ?_, ?_⟩
    · simpa only [animateStep, substepLoop] using hsteps
    · simp only [animateStep, substepLoop, if_neg halpha]
    · simp only [animateStep, substepLoop, if_pos hleft]

/-- Claim C3 witness: starting with a full second already accumulated, a
frame with raw delta 1000 ms equals the capped 50 ms frame; the cap is hit,
the leftover accumulator is discarded and alpha is 1. -/
theorem c3_frame_delta_cap_witness :
    animateStep Nat.succ 1 (0 : ℕ) 1000 = animateStep Nat.succ 1 0 50 ∧
    (animateStep Nat.succ 1 (0 : ℕ) 1000).steps = MAX_SUBSTEPS ∧
    (animateStep Nat.succ 1 (0 : ℕ) 1000).alpha = 1 ∧
    (animateStep Nat.succ 1 (0 : ℕ) 1000).accumulator = 0 := by
  have h : PHYSICS_TIMESTEP ≤
      (substepLoop Nat.succ ((1 : ℚ) + min 1000 DELTA_CAP_MS / 1000) (0 : ℕ)).1 := by
    norm_num [substepLoop, substepLoopF, PHYSICS_TIMESTEP, MAX_SUBSTEPS, DELTA_CAP_MS]
  exact ⟨(c3_frame_delta_cap Nat.succ 1 0).1,
    ((c3_frame_delta_cap Nat.succ 1 0).2.2 1000 h).1,
    ((c3_frame_delta_cap Nat.succ 1 0).2.2 1000 h).2.1,
    ((c3_frame_delta_cap Nat.succ 1 0).2.2 1000 h).2.2⟩

theorem sumW_nil : sumW [] = 0 := by
  simp [sumW]

theorem sumW_cons (p : ℕ × ℚ) (l : List (ℕ × ℚ)) : sumW (p :: l) = p.2 + sumW l := by
  simp [sumW]

/-- Every die size has total weight 100 (the fallback row included). -/
theorem sumW_weightsFor (d : ℕ) : sumW (weightsFor d) = 100 := by
  unfold weightsFor RARITY_WEIGHTS
  split <;>
    norm_num [sumW, d4Weights, d6Weights, d8Weights, d10Weights, d12Weights,
      d20Weights, d100Weights]

/-- All tier labels in every weight row lie in 1..7. -/
theorem mem_weightsFor_tier (d : ℕ) : ∀ p ∈ weightsFor d, 1 ≤ p.1 ∧ p.1 ≤ 7 := by
  unfold weightsFor RARITY_WEIGHTS
  split <;> decide

/-- The cumulative-weight loop returns the entry whose bracket contains the
draw, provided the draw lies under the total weight. -/
theorem rollTierLoop_bracket :
    ∀ (l : List (ℕ × ℚ)) (cum roll : ℚ), cum ≤ roll → roll < cum + sumW l →
      ∃ pre p suf, l = pre ++ p :: suf ∧ rollTierLoop roll cum l = p.1 ∧
        cum + sumW pre ≤ roll ∧ roll < cum + sumW pre + p.2 := by
  intro l
  induction l with
  | nil =>
    intro cum roll h1 h2
    rw [sumW_nil, add_zero] at h2
    exact absurd h2 (not_lt.mpr h1)
  | cons p rest ih =>
    obtain ⟨t, w⟩ := p
    intro cum roll h1 h2
    by_cases hc : roll < cum + w
    · refine ⟨[], (t, w), rest, rfl, by simp [rollTierLoop, hc], ?_, ?_⟩
      · rw [sumW_nil, add_zero]; exact h1
      · rw [sumW_nil, add_zero]; exact hc
    · have hc' : cum + w ≤ roll := not_lt.mp hc
      have h2' : roll < cum + w + sumW rest := by
        rw [sumW_cons] at h2
        linarith
      obtain ⟨pre', p', suf', heq, hres, hlow, hhigh⟩ := ih (cum + w) roll hc' h2'
      refine ⟨(t, w) :: pre', p', suf', by rw [heq, List.cons_append], ?_, ?_, ?_⟩
      · simp only [rollTierLoop, if_neg hc]
        exact hres
      · rw [sumW_cons]; linarith
      · rw [sumW_cons]; linarith

/-- Claim C6: every defined weight table sums to exactly 100; for every die
size and every uniform draw in [0,100), `rollTier` returns a tier in [1,7] —
precisely the entry of the row whose cumulative weight bracket contains the
draw — and a die size with no table entry uses the d20 table. -/
theorem c6_tier_roll_table (d : ℕ) (roll : ℚ) (h0 : 0 ≤ roll) (h100 : roll < 100) :
    (sumW (weightsFor 4) = 100 ∧ sumW (weightsFor 6) = 100 ∧
     sumW (weightsFor 8) = 100 ∧ sumW (weightsFor 10) = 100 ∧
     sumW (weightsFor 12) = 100 ∧ sumW (weightsFor 20) = 100 ∧
     sumW (weightsFor 100) = 100) ∧
    (1 ≤ rollTier d roll ∧ rollTier d roll ≤ 7) ∧
    (∃ pre p suf, weightsFor d = pre ++ p :: suf ∧ rollTier d roll = p.1 ∧
      sumW pre ≤ roll ∧ roll < sumW pre + p.2) ∧
    (RARITY_WEIGHTS d = none → rollTier d roll = rollTier 20 roll) := by
  have hbr : ∃ pre p suf, weightsFor d = pre ++ p :: suf ∧ rollTier d roll = p.1 ∧
      sumW pre ≤ roll ∧ roll < sumW pre + p.2 := by
    have h2 : roll < 0 + sumW (weightsFor d) := by
      rw [sumW_weightsFor, zero_add]
      exact h100
    obtain ⟨pre, p, suf, heq, hres, hlow, hhigh⟩ :=
      rollTierLoop_bracket (weightsFor d) 0 roll h0 h2
    exact ⟨pre, p, suf, heq, hres, by linarith, by linarith⟩
  refine ⟨⟨sumW_weightsFor 4, sumW_weightsFor 6, sumW_weightsFor 8, sumW_weightsFor 10,
    sumW_weightsFor 12, sumW_weightsFor 20, sumW_weightsFor 100⟩, ?_, hbr, ?_⟩
  · obtain ⟨pre, p, suf, heq, hres, -, -⟩ := hbr
    have hp : p ∈ weightsFor d := by
      rw [heq]
      exact List.mem_append_right pre (List.mem_cons_self p suf)
    rw [hres]
    exact mem_weightsFor_tier d p hp
  · intro hnone
    have h20 : RARITY_WEIGHTS 20 = some d20Weights := rfl
    simp [rollTier, weightsFor, hnone, h20]

/-- Claim C6 witness: die size 13 has no table entry, so a draw of 50 uses
the d20 table; the returned tier is within 1..7. -/
theorem c6_tier_roll_table_witness :
    (1 ≤ rollTier 13 50 ∧ rollTier 13 50 ≤ 7) ∧
      rollTier 13 50 = rollTier 20 50 :=
  ⟨(c6_tier_roll_table 13 50 (by norm_num) (by norm_num)).2.1,
   (c6_tier_roll_table 13 50 (by norm_num) (by norm_num)).2.2.2 rfl⟩

theorem sortDesc_sorted (l : List ℕ) : List.Sorted (fun a b => b ≤ a) (sortDesc l) :=
  List.sorted_insertionSort _ l

theorem sortDesc_perm (l : List ℕ) : (sortDesc l).Perm l :=
  List.perm_insertionSort _ l

/-- The last element of a descending-sorted list is below every element. -/
theorem sorted_ge_getLast_le :
    ∀ (l : List ℕ), List.Sorted (fun a b => b ≤ a) l → ∀ m, l.getLast? = some m →
      ∀ x ∈ l, m ≤ x := by
  intro l
  induction l with
  | nil => intro _ m hm; simp at hm
  | cons a rest ih =>
    intro hs m hm x hx
    cases rest with
    | nil =>
      have hma : a = m := by simpa using hm
      have hxa : x = a := by simpa using hx
      rw [← hma, hxa]
    | cons b rest2 =>
      have hm' : (b :: rest2).getLast? = some m := by
        simpa [List.getLast?_cons_cons] using hm
      have hmm : m ∈ b :: rest2 := by
        obtain ⟨hne', heq⟩ := List.mem_getLast?_eq_getLast (Option.mem_def.mpr hm')
        rw [heq]
        exact List.getLast_mem hne'
      rcases List.mem_cons.mp hx with h | h
      · rw [h]
        exact List.rel_of_sorted_cons hs m hmm
      · exact ih hs.of_cons m hm' x h

theorem dropInterval_pos (n : ℕ) : 0 < dropInterval n := by
  rw [dropInterval]
  exact lt_of_lt_of_le (by norm_num [MIN_DROP_INTERVAL_MS]) (le_max_left _ _)

/-- Claim C7: every batch handed to `processDrops` (from `spawnLoot` or
`spawnConsolationLoot`) is scheduled worst-tier-first: the appended fire
timers carry the descending-sorted tiers, their deadlines strictly increase
(so they fire in exactly that order), and the last — rarest — scheduled tier
is a minimum of the batch. -/
theorem c7_batch_animation_order (s : SchedState) (gid : ℕ) (drops : List ℕ)
    (ox oy : ℚ) (hne : drops ≠ []) :
    ∃ new, (processDrops s gid drops ox oy).timers = s.timers ++ new ∧
      new.map Timer.act = (sortDesc drops).map (fun t => TimerAct.fire gid t ox oy) ∧
      List.Sorted (fun a b => b ≤ a) (sortDesc drops) ∧
      List.Sorted (· < ·) (new.map Timer.time) ∧
      ∃ m, (sortDesc drops).getLast? = some m ∧ m ∈ drops ∧ ∀ t ∈ drops, m ≤ t := by
  refine ⟨(sortDesc drops).enum.map
      (fun p : ℕ × ℕ => Timer.mk (s.now + p.1 * dropInterval drops.length)
        (.fire gid p.2 ox oy)),
    rfl, ?_, sortDesc_sorted drops, ?_, ?_⟩
  · rw [List.map_map]
    have hcomp : Timer.act ∘
        (fun p : ℕ × ℕ => Timer.mk (s.now + p.1 * dropInterval drops.length)
          (.fire gid p.2 ox oy)) =
        (fun t => TimerAct.fire gid t ox oy) ∘ Prod.snd := rfl
    rw [hcomp, ← List.map_map,
      show (sortDesc drops).enum = (sortDesc drops).enumFrom 0 from rfl,
      List.enumFrom_map_snd]
  · rw [List.map_map]
    have hcomp : Timer.time ∘
        (fun p : ℕ × ℕ => Timer.mk (s.now + p.1 * dropInterval drops.length)
          (.fire gid p.2 ox oy)) =
        (fun i : ℕ => s.now + i * dropInterval drops.length) ∘ Prod.fst := rfl
    rw [hcomp, ← List.map_map, List.enum_map_fst]
    refine (List.pairwise_lt_range _).map _ ?_
    intro a b hab
    exact add_lt_add_left
      (mul_lt_mul_of_pos_right (by exact_mod_cast hab) (dropInterval_pos _)) s.now
  · have hsne : sortDesc drops ≠ [] := by
      intro h
      apply hne
      have hlen := congrArg List.length h
      rw [sortDesc, List.length_insertionSort] at hlen
      exact List.eq_nil_of_length_eq_zero hlen
    cases hlast : (sortDesc drops).getLast? with
    | none => exact absurd (List.getLast?_eq_none_iff.mp hlast) hsne
    | some m =>
      have hmem : m ∈ sortDesc drops := by
        obtain ⟨hne', heq⟩ := List.mem_getLast?_eq_getLast (Option.mem_def.mpr hlast)
        rw [heq]
        exact List.getLast_mem hne'
      refine ⟨m, rfl, (sortDesc_perm drops).mem_iff.mp hmem, ?_⟩
      intro t ht
      exact sorted_ge_getLast_le (sortDesc drops) (sortDesc_sorted drops) m hlast t
        ((sortDesc_perm drops).mem_iff.mpr ht)

/-- Claim C7 witness: the batch [7, 6, 7] is scheduled as [7, 7, 6] with
strictly increasing deadlines and the minimum tier 6 last. -/
theorem c7_batch_animation_order_witness :
    ∃ new, (processDrops cxInit 0 [7, 6, 7] 1 2).timers = cxInit.timers ++ new ∧
      new.map Timer.act = (sortDesc [7, 6, 7]).map (fun t => TimerAct.fire 0 t 1 2) ∧
      List.Sorted (fun a b => b ≤ a) (sortDesc [7, 6, 7]) ∧
      List.Sorted (· < ·) (new.map Timer.time) ∧
      ∃ m, (sortDesc [7, 6, 7]).getLast? = some m ∧ m ∈ [7, 6, 7] ∧
        ∀ t ∈ [7, 6, 7], m ≤ t :=
  c7_batch_animation_order cxInit 0 [7, 6, 7] 1 2 (by decide)

theorem consolationDrops_ne_nil (rTrash rZzz : ℚ) :
    consolationDrops rTrash rZzz ≠ [] := by
  simp [consolationDrops]

/-- Claim C9: `spawnConsolationLoot` bypasses the in-flight gate: for every
scheduler state — in particular any with `dropsInFlight > 0` — it leaves the
loot queue, the in-flight counter and the spawn log untouched, immediately
appends at least one staggered fire timer of its own, and returns tier 6
exactly when the zzz draw is below 1/4 (else tier 7), independently of the
scheduler state. -/
theorem c9_consolation_bypasses_gate (rTrash rZzz : ℚ) (gid : ℕ) (s : SchedState)
    (ox oy : ℚ) :
    (spawnConsolationLoot rTrash rZzz gid s ox oy).1.lootQueue = s.lootQueue ∧
    (spawnConsolationLoot rTrash rZzz gid s ox oy).1.dropsInFlight = s.dropsInFlight ∧
    (spawnConsolationLoot rTrash rZzz gid s ox oy).1.spawned = s.spawned ∧
    (∃ tm rest, (spawnConsolationLoot rTrash rZzz gid s ox oy).1.timers =
        s.timers ++ tm :: rest) ∧
    (spawnConsolationLoot rTrash rZzz gid s ox oy).2 =
      (if rZzz < (1/4 : ℚ) then TIER_ZZZ else TIER_TRASH) := by
  refine ⟨rfl, rfl, rfl, ?_, rfl⟩
  have hsne : sortDesc (consolationDrops rTrash rZzz) ≠ [] := by
    intro h
    apply consolationDrops_ne_nil rTrash rZzz
    have hlen := congrArg List.length h
    rw [sortDesc, List.length_insertionSort] at hlen
    exact List.eq_nil_of_length_eq_zero hlen
  obtain ⟨a, l, hal⟩ := List.exists_cons_of_ne_nil hsne
  refine ⟨Timer.mk (s.now + ((0 : ℕ) : ℚ) * dropInterval (consolationDrops rTrash rZzz).length)
      (.fire gid a ox oy),
    (l.enumFrom 1).map (fun p : ℕ × ℕ =>
      Timer.mk (s.now + p.1 * dropInterval (consolationDrops rTrash rZzz).length)
        (.fire gid p.2 ox oy)), ?_⟩
  show s.timers ++
      (sortDesc (consolationDrops rTrash rZzz)).enum.map
        (fun p => Timer.mk
          (s.now + p.1 * dropInterval (consolationDrops rTrash rZzz).length)
          (.fire gid p.2 ox oy)) =
    s.timers ++ _ :: _
  rw [hal, List.enum_cons, List.map_cons]

theorem takeEarliest_eq_none_iff (l : List Timer) : takeEarliest l = none ↔ l = [] := by
  cases l with
  | nil => simp [takeEarliest]
  | cons tm rest =>
    constructor
    · intro h
      exfalso
      simp only [takeEarliest] at h
      cases h' : takeEarliest rest with
      | none => rw [h'] at h; simp at h
      | some pr =>
        obtain ⟨tm', rest'⟩ := pr
        rw [h'] at h
        by_cases hc : tm.time ≤ tm'.time <;> simp [hc] at h
    · intro h
      simp at h

/-- The fired timer together with the remaining queue is a permutation of the
original queue. -/
theorem takeEarliest_perm :
    ∀ (l : List Timer) (tm : Timer) (rest : List Timer),
      takeEarliest l = some (tm, rest) → l.Perm (tm :: rest) := by
  intro l
  induction l with
  | nil => intro tm rest h; simp [takeEarliest] at h
  | cons a r ih =>
    intro tm rest h
    simp only [takeEarliest] at h
    cases h' : takeEarliest r with
    | none =>
      rw [h'] at h
      obtain ⟨rfl, rfl⟩ : a = tm ∧ [] = rest := by simpa using h
      rw [(takeEarliest_eq_none_iff r).mp h']
    | some pr =>
      obtain ⟨tm', rest'⟩ := pr
      rw [h'] at h
      dsimp only at h
      by_cases hc : a.time ≤ tm'.time
      · rw [if_pos hc] at h
        obtain ⟨rfl, rfl⟩ : a = tm ∧ r = rest := by simpa using h
        exact List.Perm.refl _
      · rw [if_neg hc] at h
        obtain ⟨rfl, rfl⟩ : tm' = tm ∧ a :: rest' = rest := by simpa using h
        exact ((ih tm' rest' h').cons a).trans (List.Perm.swap tm' a rest')

theorem timersTiers_cons (x : Timer) (xs : List Timer) :
    timersTiers (x :: xs) = actTiers x.act ++ timersTiers xs := by
  simp [timersTiers]

theorem timersTiers_append (l₁ l₂ : List Timer) :
    timersTiers (l₁ ++ l₂) = timersTiers l₁ ++ timersTiers l₂ := by
  simp [timersTiers, List.flatMap_append]

/-- The batch of fire timers scheduled by `processDrops` owes exactly its
drop list. -/
theorem timersTiers_fireBatch (gid : ℕ) (ox oy now iv : ℚ) :
    ∀ (n : ℕ) (l : List ℕ),
      timersTiers ((l.enumFrom n).map
        (fun p : ℕ × ℕ => Timer.mk (now + p.1 * iv) (.fire gid p.2 ox oy))) = l := by
  intro n l
  induction l generalizing n with
  | nil => simp [timersTiers]
  | cons a t ih =>
    rw [List.enumFrom_cons, List.map_cons, timersTiers_cons, ih (n + 1)]
    simp [actTiers]

theorem timersTiers_perm {l₁ l₂ : List Timer} (h : l₁.Perm l₂) :
    (timersTiers l₁).Perm (timersTiers l₂) :=
  h.flatMap_right _

/-- `processDrops` adds exactly its drop list to the conserved quantity. -/
theorem liveTiers_processDrops (oracle : ℕ → List ℚ) (s : SchedState) (gid : ℕ)
    (drops : List ℕ) (ox oy : ℚ) :
    (liveTiers oracle (processDrops s gid drops ox oy) : Multiset ℕ) =
      ↑drops + ↑(liveTiers oracle s) := by
  have hsd : (↑(sortDesc drops) : Multiset ℕ) = ↑drops :=
    Multiset.coe_eq_coe.mpr (sortDesc_perm drops)
  simp only [liveTiers, processDrops]
  rw [timersTiers_append,
    show (sortDesc drops).enum = (sortDesc drops).enumFrom 0 from rfl,
    timersTiers_fireBatch gid ox oy s.now (dropInterval drops.length) 0 (sortDesc drops)]
  simp only [← Multiset.coe_add, hsd]
  abel

theorem liveTiers_processLootDrop (oracle : ℕ → List ℚ) (s : SchedState) (e : LootEntry) :
    (liveTiers oracle (processLootDrop oracle s e) : Multiset ℕ) =
      ↑(dropsFor oracle e) + ↑(liveTiers oracle s) :=
  liveTiers_processDrops oracle s e.gid (dropsFor oracle e) e.originX e.originY

/-- A fire callback moves one owed tier from the timer queue into the spawn
log (the timer itself was removed by the dispatcher). -/
theorem liveTiers_fireAct_fire (oracle : ℕ → List ℚ) (s : SchedState)
    (gid tier : ℕ) (ox oy : ℚ) :
    (liveTiers oracle (fireAct oracle s (.fire gid tier ox oy)) : Multiset ℕ) =
      ↑[tier] + ↑(liveTiers oracle s) := by
  simp only [liveTiers, fireAct]
  rw [timersTiers_append, List.map_append]
  simp only [timersTiers, List.flatMap_cons, List.flatMap_nil, actTiers,
    List.map_cons, List.map_nil, List.append_nil]
  simp only [← Multiset.coe_add]
  abel

/-- A settle callback conserves the owed tiers: it either only decrements the
counter, or dequeues the next batch, whose owed drops move from the queue to
the timer queue. -/
theorem liveTiers_fireAct_settle (oracle : ℕ → List ℚ) (s : SchedState) :
    (liveTiers oracle (fireAct oracle s .settle) : Multiset ℕ) =
      ↑(liveTiers oracle s) := by
  by_cases hz : s.dropsInFlight - 1 = 0
  · cases hq : s.lootQueue with
    | nil => simp [fireAct, liveTiers, hz, hq]
    | cons e rest =>
      have hstep : fireAct oracle s .settle =
          processLootDrop oracle
            { s with dropsInFlight := s.dropsInFlight - 1, lootQueue := rest } e := by
        simp [fireAct, hz, hq]
      rw [hstep, liveTiers_processLootDrop]
      simp only [liveTiers, queueTiers, hq, List.flatMap_cons]
      simp only [← Multiset.coe_add]
      abel
  · simp [fireAct, liveTiers, hz]

/-- One discrete-event step never loses or duplicates an owed drop. -/
theorem liveTiers_stepSim (oracle : ℕ → List ℚ) (s : SchedState) :
    (liveTiers oracle (stepSim oracle s) : Multiset ℕ) = ↑(liveTiers oracle s) := by
  cases hte : takeEarliest s.timers with
  | none => simp [stepSim, hte]
  | some pr =>
    obtain ⟨tm, rest⟩ := pr
    have hperm : s.timers.Perm (tm :: rest) := takeEarliest_perm _ _ _ hte
    have htt : (↑(timersTiers s.timers) : Multiset ℕ) = ↑(timersTiers (tm :: rest)) :=
      Multiset.coe_eq_coe.mpr (timersTiers_perm hperm)
    have hstep : stepSim oracle s =
        fireAct oracle { s with now := tm.time, timers := rest } tm.act := by
      simp [stepSim, hte]
    have hsplit : (↑(liveTiers oracle s) : Multiset ℕ) =
        ↑(actTiers tm.act) +
          ↑(liveTiers oracle { s with now := tm.time, timers := rest }) := by
      simp only [liveTiers]
      simp only [← Multiset.coe_add]
      rw [show (↑(timersTiers s.timers) : Multiset ℕ) =
        ↑(actTiers tm.act) + ↑(timersTiers rest) by
          rw [htt, timersTiers_cons, ← Multiset.coe_add]]
      abel
    rw [hstep, hsplit]
    cases hact : tm.act with
    | fire gid tier ox oy =>
      rw [liveTiers_fireAct_fire]
      simp [actTiers]
    | settle =>
      rw [liveTiers_fireAct_settle]
      simp [actTiers]

/-- `spawnLoot` adds exactly its batch's eventual drops to the conserved
quantity, whether it enqueues or processes immediately. -/
theorem liveTiers_spawnLoot (oracle : ℕ → List ℚ) (s : SchedState) (e : LootEntry) :
    (liveTiers oracle (spawnLoot oracle s e) : Multiset ℕ) =
      ↑(dropsFor oracle e) + ↑(liveTiers oracle s) := by
  by_cases h : 0 < s.dropsInFlight
  · simp only [spawnLoot, if_pos h, liveTiers, queueTiers, List.flatMap_append,
      List.flatMap_cons, List.flatMap_nil, List.append_nil]
    simp only [← Multiset.coe_add]
    abel
  · simp only [spawnLoot, if_neg h]
    exact liveTiers_processLootDrop oracle s e

/-- Claim C1 (amended): a `spawnLoot` call arriving while `dropsInFlight > 0`
is enqueued at the back of the queue and nothing else changes; with the
counter at zero it is processed immediately; when a settle callback returns
the counter to zero the queue's front batch — submission order is FIFO — is
dequeued and processed; and both the event dispatcher and `spawnLoot`
conserve the multiset of owed drops (no drop is lost or duplicated).  The
original claim's further guarantee that at most one batch's drops are
staggering at a time fails: see the counterexample, where the counter
returns to zero while a batch's later drops are still pending, because the
100 ms settle delay is shorter than the 147.6 ms stagger interval of a
two-drop batch. -/
theorem c1_loot_queue_gate (oracle : ℕ → List ℚ) (s : SchedState) (e : LootEntry)
    (rest : List LootEntry) :
    (0 < s.dropsInFlight →
      spawnLoot oracle s e = { s with lootQueue := s.lootQueue ++ [e] }) ∧
    (s.dropsInFlight = 0 →
      spawnLoot oracle s e = processLootDrop oracle s e) ∧
    (s.dropsInFlight = 1 → s.lootQueue = e :: rest →
      fireAct oracle s .settle =
        processLootDrop oracle
          { s with dropsInFlight := 0, lootQueue := rest } e) ∧
    (liveTiers oracle (stepSim oracle s) : Multiset ℕ) = ↑(liveTiers oracle s) ∧
    (liveTiers oracle (spawnLoot oracle s e) : Multiset ℕ) =
      ↑(dropsFor oracle e) + ↑(liveTiers oracle s) := by
  refine ⟨fun h => by simp [spawnLoot, h], fun h => by simp [spawnLoot, h], ?_,
    liveTiers_stepSim oracle s, liveTiers_spawnLoot oracle s e⟩
  intro h1 hq
  simp [fireAct, h1, hq]

/-- Claim C1 witness: the gate enqueues while one drop is in flight, a settle
with the counter at one dequeues the front batch, and conservation holds at
the initial state. -/
theorem c1_loot_queue_gate_witness :
    spawnLoot oracleCx ⟨100, [], 1, [], [(0, 7)]⟩ entryB =
      { now := 100, timers := [], dropsInFlight := 1, lootQueue := [] ++ [entryB],
        spawned := [(0, 7)] } ∧
    fireAct oracleCx ⟨100, [], 1, [entryB], [(0, 7)]⟩ .settle =
      processLootDrop oracleCx ⟨100, [], 0, [], [(0, 7)]⟩ entryB ∧
    (liveTiers oracleCx (stepSim oracleCx cxInit) : Multiset ℕ) =
      ↑(liveTiers oracleCx cxInit) ∧
    spawnLoot oracleCx cxInit entryA = processLootDrop oracleCx cxInit entryA :=
  ⟨(c1_loot_queue_gate oracleCx ⟨100, [], 1, [], [(0, 7)]⟩ entryB []).1 Nat.one_pos,
   (c1_loot_queue_gate oracleCx ⟨100, [], 1, [entryB], [(0, 7)]⟩ entryB []).2.2.1 rfl rfl,
   (c1_loot_queue_gate oracleCx cxInit entryA []).2.2.2.1,
   (c1_loot_queue_gate oracleCx cxInit entryA []).2.1 rfl⟩

/-- Claim C1 counterexample: batch A (gid 0, two drops staggered 147.6 ms
apart) is submitted first; its first drop fires and settles after 100 ms,
returning the counter to zero while A's second drop is still pending; the
queued batch B (gid 1) is dequeued and its first drop fires before A's
second drop does.  The ghost spawn log comes out [(0,7), (1,7), (0,6)]:
batch ids interleave as 0, 1, 0, so it is false that at most one batch's
drops are staggering at a time (equivalently, that the spawn log's batch
ids never interleave across submissions). -/
theorem c1_counterexample :
    cxState.spawned = [(0, 7), (1, 7), (0, 6)] ∧
    cxState.spawned.map Prod.fst = [0, 1, 0] ∧
    ¬(cxState.spawned.map Prod.fst).Sorted (· ≤ ·) ∧
    entryA.gid = 0 ∧ entryB.gid = 1 := by
  have h : cxState.spawned = [(0, 7), (1, 7), (0, 6)] := by
    norm_num [cxState, spawnLoot, cxInit, entryA, entryB, processLootDrop, dropsFor,
      rolledTiers, oracleCx, rollTier, weightsFor, RARITY_WEIGHTS, d20Weights,
      rollTierLoop, applyPity, lootBatch, TIER_TRASH, TIER_ZZZ, listMin, processDrops,
      sortDesc, dropInterval, BASE_DROP_INTERVAL_MS, MIN_DROP_INTERVAL_MS,
      List.insertionSort, List.orderedInsert, List.enum, List.enumFrom, stepSim,
      takeEarliest, fireAct]
  refine ⟨h, ?_, ?_, rfl, rfl⟩
  · rw [h]
    rfl
  · rw [h]
    decide

/-- Claim C8 witness: a push onto a 50-entry list is dropped silently. -/
theorem c8_impact_cap_witness :
    pushImpact (List.replicate 50 ⟨0, 0, 4, 1, "c"⟩) ⟨1, 2, 3, 1, "d"⟩ =
      List.replicate 50 ⟨0, 0, 4, 1, "c"⟩ ∧
    (applyOps [.push ⟨1, 2, 3, 1, "d"⟩]).length ≤ MAX_IMPACTS :=
  ⟨(c8_impact_cap [] (List.replicate 50 ⟨0, 0, 4, 1, "c"⟩) ⟨1, 2, 3, 1, "d"⟩).2.1
      (by simp [MAX_IMPACTS]),
   (c8_impact_cap [.push ⟨1, 2, 3, 1, "d"⟩] [] ⟨1, 2, 3, 1, "d"⟩).1⟩

end SmallerGames
